import Mathlib

/-!
Shallow embedding of the hardware-control core of `notebook-control.py`:
the fan device protocol layer (`FanController`), the fan-curve model
(`FanCurve.get_speed` and the curve-point editing operations), and the
keyboard-backlight controller (`KeyboardBacklightController`).

Machine integers are modelled as `Nat`/`Int` with explicit masking where the
source masks.  The fan-curve interpolation is evaluated by the source in
IEEE binary64 arithmetic; it is modelled faithfully by `fl`, a computable
round-to-nearest-even to 53 significant bits over exact rationals
(overflow and subnormals cannot arise from the program's integer inputs).
The two scale factors `2.55` and `100 / 255` of the fan-speed encode and
decode are modelled in exact rational arithmetic (`2.55 = 51 / 20`), which
agrees with the double evaluation on every integer percentage the program
passes except `int(100 * 2.55)`, where the double product yields `254`
instead of `255` (a difference that does not affect any statement proved
below, since the decode `round(254 * 100 / 255) = round(255 * 100 / 255)
= 100`).
-/

namespace NotebookControl

/-! ## ioctl request codes (module header of the source) -/

def IOCTL_MAGIC : Nat := 0xEC
def MAGIC_READ_CL : Nat := IOCTL_MAGIC + 1
def MAGIC_WRITE_CL : Nat := IOCTL_MAGIC + 2
def MAGIC_READ_UW : Nat := IOCTL_MAGIC + 3
def MAGIC_WRITE_UW : Nat := IOCTL_MAGIC + 4

def PTR_SIZE : Nat := 8

/-- Encoding of `_IOC(d, t, n, s)`: direction, magic group, command number, payload size. -/
def ioc (d t n s : Nat) : Nat := (d <<< 30) ||| (t <<< 8) ||| (n <<< 0) ||| (s <<< 16)

/-- Encoding of `_IOR`: read-direction command. -/
def ior (t n : Nat) : Nat := ioc 2 t n PTR_SIZE

/-- Encoding of `_IOW`: write-direction command. -/
def iow (t n : Nat) : Nat := ioc 1 t n PTR_SIZE

/-- Encoding of `_IO`: no-direction, no-payload command. -/
def io0 (t n : Nat) : Nat := ioc 0 t n 0

def R_HWCHECK_CL : Nat := ior IOCTL_MAGIC 0x05
def R_CL_FANINFO1 : Nat := ior MAGIC_READ_CL 0x10
def R_CL_FANINFO2 : Nat := ior MAGIC_READ_CL 0x11
def R_CL_FANINFO3 : Nat := ior MAGIC_READ_CL 0x12
def W_CL_FANSPEED : Nat := iow MAGIC_WRITE_CL 0x10
def W_CL_FANAUTO : Nat := iow MAGIC_WRITE_CL 0x11

def R_HWCHECK_UW : Nat := ior IOCTL_MAGIC 0x06
def R_UW_FANSPEED : Nat := ior MAGIC_READ_UW 0x10
def R_UW_FANSPEED2 : Nat := ior MAGIC_READ_UW 0x11
def R_UW_FAN_TEMP : Nat := ior MAGIC_READ_UW 0x12
def R_UW_FAN_TEMP2 : Nat := ior MAGIC_READ_UW 0x13
def W_UW_FANSPEED : Nat := iow MAGIC_WRITE_UW 0x10
def W_UW_FANSPEED2 : Nat := iow MAGIC_WRITE_UW 0x11
def W_UW_FANAUTO : Nat := io0 MAGIC_WRITE_UW 0x14

/-! ## Rounding helpers -/

/-- Python `int(q)` on a rational: truncation toward zero
(`q.den` is positive, so `tdiv` truncates the fraction toward zero). -/
def ratTrunc (q : ℚ) : ℤ := Int.tdiv q.num (q.den : ℤ)

/-- Python `round(q)` on a rational: round half to even (banker's rounding). -/
def pyRound (q : ℚ) : ℤ :=
  let f : ℤ := Int.fdiv q.num (q.den : ℤ)
  let r : ℚ := q - (f : ℚ)
  if r < 1 / 2 then f
  else if 1 / 2 < r then f + 1
  else if f % 2 = 0 then f else f + 1

/-- Bit length of a natural number, by fuelled binary descent (the fuel
`n` itself always suffices). -/
def bitLen : Nat → Nat → Nat
  | 0, _ => 0
  | fuel + 1, n => if n = 0 then 0 else bitLen fuel (n / 2) + 1

/-- Number of binary digits of `n`. -/
def nbits (n : Nat) : Nat := bitLen n n

/-- Test `2 ^ e ≤ num / den` by cross-multiplying with the power of two. -/
def geTwoPow (num den : Nat) (e : ℤ) : Bool :=
  if 0 ≤ e then decide (den * 2 ^ e.toNat ≤ num)
  else decide (den ≤ num * 2 ^ (-e).toNat)

/-- Round the positive rational `num / den` to the nearest IEEE binary64
value (53 significant bits, ties to even), returned as an exact rational.
The exponent guess from the bit lengths is off by at most one and is
corrected by one comparison; the mantissa is obtained by rounding
`num / den / 2 ^ (f - 52)` to the nearest integer. -/
def flPos (num den : Nat) : ℚ :=
  let e0 : ℤ := (nbits num : ℤ) - (nbits den : ℤ)
  let f : ℤ := if geTwoPow num den e0 then e0 else e0 - 1
  let shift : ℤ := 52 - f
  let X : Nat := num * 2 ^ (max shift 0).toNat
  let Y : Nat := den * 2 ^ (max (-shift) 0).toNat
  let q : Nat := X / Y
  let r : Nat := X % Y
  let m : Nat := if 2 * r < Y then q else if Y < 2 * r then q + 1
    else if q % 2 = 0 then q else q + 1
  if 52 ≤ f then ((m * 2 ^ (f - 52).toNat : Nat) : ℚ)
  else (m : ℚ) / ((2 ^ (52 - f).toNat : Nat) : ℚ)

/-- Correct rounding of an exact rational to IEEE binary64 (round to
nearest, ties to even), as performed by every Python float operation on
its exact intermediate result.  Overflow and subnormals are not modelled;
the values this development applies `fl` to are all zero or normal. -/
def fl (q : ℚ) : ℚ :=
  if q = 0 then 0
  else if q < 0 then -flPos q.num.natAbs q.den
  else flPos q.num.natAbs q.den

/-! ## FanController

The device is modelled as a map `dev : Nat → Nat` from request code to the
32-bit register word the kernel places in the first four bytes of the
buffer; `ioctl_read_int32` reinterprets that word as a signed 32-bit value,
as `struct.unpack('i', buf[:4])` does.  Each operation returns, besides its
result, the list of ioctl calls it issued, so that "performs no device
access" and "writes a single packed word" are expressible.
-/

/-- Reinterpret a 32-bit register word as a signed integer
(`struct.unpack('i', buf[:4])`). -/
def int32 (w : Nat) : Int :=
  if w % 2 ^ 32 < 2 ^ 31 then ((w % 2 ^ 32 : Nat) : Int)
  else ((w % 2 ^ 32 : Nat) : Int) - 2 ^ 32

/-- One ioctl call issued to the control device: a 32-bit read, a 32-bit
write, or an argument-less command (`fcntl.ioctl(fd, req)`). -/
inductive IoctlCall where
  | read (req : Nat)
  | write (req : Nat) (val : Int)
  | bare (req : Nat)
  deriving DecidableEq, Repr

/-- The writes contained in an ioctl trace, in order. -/
def writesOf (tr : List IoctlCall) : List (Nat × Int) :=
  tr.filterMap fun c =>
    match c with
    | IoctlCall.write req val => some (req, val)
    | _ => none

/-- Model of `ioctl_read_int32(fd, req)`. -/
def ioctl_read_int32 (dev : Nat → Nat) (req : Nat) : Int := int32 (dev req)

inductive Platform where
  | clevo
  | uniwill
  deriving DecidableEq, Repr

/-- Connection state of the `FanController`: whether the device handle is
open, and which protocol variant the capability probe recorded. -/
structure FanController where
  fd : Bool
  platform : Option Platform
  deriving DecidableEq, Repr

def cl_faninfo_cmds : List Nat := [R_CL_FANINFO1, R_CL_FANINFO2, R_CL_FANINFO3]

/-- Clevo decode of one combined status word (already sign-reinterpreted):
`speed = info & 0xff`, `temp = (info >> 16) & 0xff`, sign-extended
(`if temp > 127: temp -= 256`), speed rescaled `round(speed * 100 / 255)`.
Python's `&` and `>>` on a (possibly negative) int are modular remainder
and floor division by the corresponding power of two. -/
def clevo_decode (info : Int) : Int × Int :=
  let speed : Int := info % 256
  let temp0 : Int := (Int.fdiv info 65536) % 256
  let temp : Int := if 127 < temp0 then temp0 - 256 else temp0
  (pyRound ((speed : ℚ) * 100 / 255), temp)

/-- Model of `FanController.get_fan_info`.  A disconnected controller returns
`(0, 0)` without touching the device; an out-of-range `fan_id` on clevo
raises `IndexError` before any ioctl, caught into `(0, 0)`. -/
def get_fan_info (c : FanController) (dev : Nat → Nat) (fan_id : Nat) :
    (Int × Int) × List IoctlCall :=
  if c.fd then
    match c.platform with
    | some Platform.clevo =>
      match cl_faninfo_cmds.get? fan_id with
      | some cmd => (clevo_decode (ioctl_read_int32 dev cmd), [IoctlCall.read cmd])
      | none => ((0, 0), [])
    | some Platform.uniwill =>
      let speed_cmd := if fan_id = 0 then R_UW_FANSPEED else R_UW_FANSPEED2
      let temp_cmd := if fan_id = 0 then R_UW_FAN_TEMP else R_UW_FAN_TEMP2
      ((ioctl_read_int32 dev speed_cmd, ioctl_read_int32 dev temp_cmd),
        [IoctlCall.read speed_cmd, IoctlCall.read temp_cmd])
    | none => ((0, 0), [])
  else ((0, 0), [])

/-- Value of `int(speed_pct * 2.55)` in exact rational arithmetic (`2.55 = 51/20`,
`int` truncates toward zero). -/
def clevo_raw (speed_pct : Int) : Int := Int.tdiv (speed_pct * 51) 20

/-- The byte packed for channel `i` of the clevo all-channel speed write:
the new raw speed for `fan_id`, the low byte of a fresh status read for
every other channel. -/
def clevo_chan (dev : Nat → Nat) (fan_id : Nat) (speed_pct : Int) (i : Nat) : Nat :=
  if i = fan_id then (clevo_raw speed_pct).toNat
  else ((ioctl_read_int32 dev (cl_faninfo_cmds.getD i 0)) % 256).toNat

/-- The packed word `speeds[0] | (speeds[1] << 8) | (speeds[2] << 16)`
written by the clevo branch of `set_fan_speed`. -/
def clevo_arg (dev : Nat → Nat) (fan_id : Nat) (speed_pct : Int) : Nat :=
  clevo_chan dev fan_id speed_pct 0 |||
    (clevo_chan dev fan_id speed_pct 1 <<< 8) |||
    (clevo_chan dev fan_id speed_pct 2 <<< 16)

/-- Model of `FanController.set_fan_speed`, as the trace of ioctl calls it issues. -/
def set_fan_speed (c : FanController) (dev : Nat → Nat) (fan_id : Nat)
    (speed_pct : Int) : List IoctlCall :=
  if c.fd then
    match c.platform with
    | some Platform.clevo =>
      ((List.range 3).filter (fun i => i ≠ fan_id)).map
          (fun i => IoctlCall.read (cl_faninfo_cmds.getD i 0)) ++
        [IoctlCall.write W_CL_FANSPEED ((clevo_arg dev fan_id speed_pct : Nat) : Int)]
    | some Platform.uniwill =>
      [IoctlCall.write (if fan_id = 0 then W_UW_FANSPEED else W_UW_FANSPEED2)
        (speed_pct * 2)]
    | none => []
  else []

/-- Model of `FanController.set_auto`. -/
def set_auto (c : FanController) : List IoctlCall :=
  if c.fd then
    match c.platform with
    | some Platform.clevo => [IoctlCall.write W_CL_FANAUTO 0x0f]
    | some Platform.uniwill => [IoctlCall.bare W_UW_FANAUTO]
    | none => []
  else []

/-- Model of `FanController.set_manual_mode`. -/
def set_manual_mode (c : FanController) : List IoctlCall :=
  if c.fd then
    match c.platform with
    | some Platform.clevo => [IoctlCall.write W_CL_FANAUTO 0]
    | some Platform.uniwill => []
    | none => []
  else []

/-- Byte `i` (counting from the least significant) of a packed word. -/
def byteAt (w : Nat) (i : Nat) : Nat := (w >>> (8 * i)) &&& 255

/-! ## FanCurve -/

/-- The interpolation returned inside the bracketing branch of `get_speed`:
`int(s1 + (temp - t1) / (t2 - t1) * (s2 - s1))` evaluated as the source
does, in IEEE binary64: the integer subtractions are exact, the true
division of the two integers, the multiplication by the (exactly
converted) speed difference and the addition of the (exactly converted)
base speed are each correctly rounded (`fl`), and the result is truncated
toward zero. -/
def interpStep (p1 p2 : ℤ × ℤ) (temp : ℤ) : ℤ :=
  ratTrunc (fl (fl (p1.2 : ℚ) +
    fl (fl (((temp - p1.1 : ℤ) : ℚ) / ((p2.1 - p1.1 : ℤ) : ℚ)) *
      fl ((p2.2 - p1.2 : ℤ) : ℚ))))

/-- The scan `for i in range(len(points) - 1)` of `get_speed`: the first
consecutive pair with `t1 <= temp <= t2` produces the interpolated speed. -/
def interpLoop (temp : ℤ) : List (ℤ × ℤ) → Option ℤ
  | p1 :: p2 :: rest =>
    if p1.1 ≤ temp ∧ temp ≤ p2.1 then some (interpStep p1 p2 temp)
    else interpLoop temp (p2 :: rest)
  | _ => none

/-- Model of `FanCurve.get_speed`. -/
def get_speed (pts : List (ℤ × ℤ)) (temp : ℤ) : ℤ :=
  if temp ≤ (pts.headD (0, 0)).1 then (pts.headD (0, 0)).2
  else if (pts.getLastD (0, 0)).1 ≤ temp then (pts.getLastD (0, 0)).2
  else (interpLoop temp pts).getD (pts.getLastD (0, 0)).2

/-! ## Curve-point editing (application layer) -/

/-- The point inserted between two bracketing points:
`((t1 + t2) // 2, (s1 + s2) // 2)` with Python floor division. -/
def midpoint2 (p1 p2 : ℤ × ℤ) : ℤ × ℤ :=
  (Int.fdiv (p1.1 + p2.1) 2, Int.fdiv (p1.2 + p2.2) 2)

/-- The scan of `add_curve_point`: insert the floor-midpoint after the first
consecutive pair whose temperature difference exceeds 5, then stop. -/
def insert_gap : List (ℤ × ℤ) → List (ℤ × ℤ)
  | p1 :: p2 :: rest =>
    if 5 < p2.1 - p1.1 then p1 :: midpoint2 p1 p2 :: p2 :: rest
    else p1 :: insert_gap (p2 :: rest)
  | l => l

/-- Model of `NotebookControlApp.add_curve_point`. -/
def add_curve_point (pts : List (ℤ × ℤ)) : List (ℤ × ℤ) :=
  if 15 ≤ pts.length then pts else insert_gap pts

/-- Model of `NotebookControlApp.remove_curve_point`: `sel` is the index of the
selected row, `none` when nothing is selected. -/
def remove_curve_point (pts : List (ℤ × ℤ)) (sel : Option Nat) : List (ℤ × ℤ) :=
  if pts.length ≤ 2 then pts
  else
    match sel with
    | none => pts
    | some idx => pts.eraseIdx idx

/-! ## KeyboardBacklightController

Each LED-class directory (`kbd_backlight_paths[z]`) is a `Zone`.  The
`brightness` and `multi_intensity` attribute files of a zone are each
either present and writable, missing (the `os.path.exists` guard skips
them silently), or present but raising on write (the `except` branch). -/

inductive ZoneFile where
  | present
  | missing
  | wfail
  deriving DecidableEq, Repr

structure Zone where
  bfile : ZoneFile
  mfile : ZoneFile
  brightness : ℤ
  color : ℤ × ℤ × ℤ
  deriving DecidableEq, Repr

/-- State of the `KeyboardBacklightController` together with the sysfs files it
owns: zone list, RGB capability, `max_brightness`, and the snapshot fields
`saved_brightness` / `saved_color`. -/
structure Kb where
  zones : List Zone
  hasRgb : Bool
  maxBrightness : ℤ
  savedBrightness : ℤ
  savedColor : ℤ × ℤ × ℤ
  deriving DecidableEq, Repr

/-- Model of `KeyboardBacklightController.get_brightness`: reads zone 0's
`brightness` file; returns 0 when no path or no file. -/
def get_brightness (kb : Kb) : ℤ :=
  match kb.zones with
  | [] => 0
  | z :: _ =>
    match z.bfile with
    | ZoneFile.missing => 0
    | _ => z.brightness

/-- The zone loop of `set_brightness`: write the clamped value to each
zone's `brightness` file in order; a missing file is skipped, a raising
write returns `False` immediately, leaving the remaining zones untouched. -/
def set_brightness_go (v : ℤ) : List Zone → Bool × List Zone
  | [] => (true, [])
  | z :: rest =>
    match z.bfile with
    | ZoneFile.missing =>
      let r := set_brightness_go v rest
      (r.1, z :: r.2)
    | ZoneFile.wfail => (false, z :: rest)
    | ZoneFile.present =>
      let r := set_brightness_go v rest
      (r.1, { z with brightness := v } :: r.2)

/-- Model of `KeyboardBacklightController.set_brightness`. -/
def set_brightness (kb : Kb) (v : ℤ) : Bool × Kb :=
  if kb.zones.isEmpty then (false, kb)
  else
    let c := max 0 (min v kb.maxBrightness)
    let r := set_brightness_go c kb.zones
    (r.1, { kb with zones := r.2 })

/-- Clamp `max(0, min(255, x))`. -/
def clamp255 (x : ℤ) : ℤ := max 0 (min 255 x)

/-- Model of `KeyboardBacklightController.get_color`: zone's `multi_intensity`
triple, or `(255, 255, 255)` when not RGB-capable, out of range, or the
attribute file is missing. -/
def get_color (kb : Kb) (zone : Nat) : ℤ × ℤ × ℤ :=
  if kb.hasRgb = false ∨ kb.zones.length ≤ zone then (255, 255, 255)
  else
    match kb.zones.get? zone with
    | none => (255, 255, 255)
    | some z =>
      match z.mfile with
      | ZoneFile.missing => (255, 255, 255)
      | _ => z.color

/-- The `zone is None` loop of `set_color`: write the clamped triple to
every zone's `multi_intensity` file in index order; a missing file is
skipped, a raising write returns `False` immediately. -/
def set_color_zones (rgb : ℤ × ℤ × ℤ) : List Zone → Bool × List Zone
  | [] => (true, [])
  | z :: rest =>
    match z.mfile with
    | ZoneFile.missing =>
      let r := set_color_zones rgb rest
      (r.1, z :: r.2)
    | ZoneFile.wfail => (false, z :: rest)
    | ZoneFile.present =>
      let r := set_color_zones rgb rest
      (r.1, { z with color := rgb } :: r.2)

/-- Model of `KeyboardBacklightController.set_color`. -/
def set_color (kb : Kb) (r g b : ℤ) (zone : Option Nat) : Bool × Kb :=
  if kb.hasRgb = false then (false, kb)
  else
    let rgb := (clamp255 r, clamp255 g, clamp255 b)
    match zone with
    | none =>
      let res := set_color_zones rgb kb.zones
      (res.1, { kb with zones := res.2 })
    | some z =>
      if kb.zones.length ≤ z then (true, kb)
      else
        match kb.zones.get? z with
        | none => (true, kb)
        | some zz =>
          match zz.mfile with
          | ZoneFile.missing => (true, kb)
          | ZoneFile.wfail => (false, kb)
          | ZoneFile.present =>
            (true, { kb with zones := kb.zones.set z { zz with color := rgb } })

/-- Model of `KeyboardBacklightController.set_color_all_zones`. -/
def set_color_all_zones (kb : Kb) (r g b : ℤ) : Bool × Kb :=
  set_color kb r g b none

/-- Model of `KeyboardBacklightController.save_state`: snapshot brightness (and, if
RGB-capable, zone-0 color) from the live files. -/
def save_state (kb : Kb) : Kb :=
  let kb1 := { kb with savedBrightness := get_brightness kb }
  if kb.hasRgb then { kb1 with savedColor := get_color kb 0 } else kb1

/-- Model of `KeyboardBacklightController.restore_state`: write the snapshot back. -/
def restore_state (kb : Kb) : Kb :=
  let kb1 := (set_brightness kb kb.savedBrightness).2
  if kb.hasRgb then
    (set_color kb1 kb.savedColor.1 kb.savedColor.2.1 kb.savedColor.2.2 none).2
  else kb1

/-- Effect of one successful brightness write on a zone (specification
helper): a present file takes the value, a missing one is skipped. -/
def bwrite (v : ℤ) (z : Zone) : Zone :=
  if z.bfile = ZoneFile.present then { z with brightness := v } else z

/-- Effect of one successful color write on a zone (specification helper). -/
def cwrite (rgb : ℤ × ℤ × ℤ) (z : Zone) : Zone :=
  if z.mfile = ZoneFile.present then { z with color := rgb } else z

/-! ## Helper lemmas -/

theorem pack_eq_add (s0 s1 s2 : Nat) (h0 : s0 < 256) (h1 : s1 < 256) :
    (s0 ||| s1 <<< 8 ||| s2 <<< 16) = s0 + s1 * 256 + s2 * 65536 := by
  have h0' : s0 < 2 ^ 8 := by omega
  have e1 : s1 <<< 8 = 2 ^ 8 * s1 := by rw [Nat.shiftLeft_eq]; ring
  have e2 : s2 <<< 16 = 2 ^ 16 * s2 := by rw [Nat.shiftLeft_eq]; ring
  have h01 : s0 ||| s1 <<< 8 = 2 ^ 8 * s1 + s0 := by
    rw [e1, Nat.lor_comm]
    exact (Nat.mul_add_lt_is_or h0' s1).symm
  have hlt : 2 ^ 8 * s1 + s0 < 2 ^ 16 := by omega
  have h012 : (s0 ||| s1 <<< 8) ||| s2 <<< 16 = 2 ^ 16 * s2 + (2 ^ 8 * s1 + s0) := by
    rw [h01, e2, Nat.lor_comm]
    exact (Nat.mul_add_lt_is_or hlt s2).symm
  rw [h012]
  omega

theorem land255_eq_mod (w : Nat) : w &&& 255 = w % 256 := by
  have h := Nat.and_pow_two_sub_one_eq_mod w 8
  norm_num at h
  exact h

theorem byteAt_pack (s0 s1 s2 : Nat) (h0 : s0 < 256) (h1 : s1 < 256) (h2 : s2 < 256) :
    byteAt (s0 ||| s1 <<< 8 ||| s2 <<< 16) 0 = s0 ∧
    byteAt (s0 ||| s1 <<< 8 ||| s2 <<< 16) 1 = s1 ∧
    byteAt (s0 ||| s1 <<< 8 ||| s2 <<< 16) 2 = s2 := by
  rw [byteAt, byteAt, byteAt, pack_eq_add s0 s1 s2 h0 h1]
  simp only [land255_eq_mod, Nat.shiftRight_eq_div_pow]
  norm_num
  omega

theorem clevo_raw_bounds (p : ℤ) (h0 : 0 ≤ p) (h1 : p ≤ 100) :
    0 ≤ clevo_raw p ∧ clevo_raw p ≤ 255 := by
  unfold clevo_raw
  rw [Int.tdiv_eq_ediv (by omega) (by omega)]
  omega

/-! ## Claims -/

/-- C3: every operation of a disconnected `FanController` (no open device
handle) is a no-op that never raises: `get_fan_info` returns `(0, 0)` for
every fan index, and `set_fan_speed`, `set_auto`, `set_manual_mode` issue
no ioctl at all. -/
theorem disconnected_noop (c : FanController) (dev : Nat → Nat) (fan_id : Nat)
    (speed_pct : Int) (h : c.fd = false) :
    get_fan_info c dev fan_id = ((0, 0), []) ∧
    set_fan_speed c dev fan_id speed_pct = [] ∧
    set_auto c = [] ∧ set_manual_mode c = [] := by
  simp [get_fan_info, set_fan_speed, set_auto, set_manual_mode, h]

theorem disconnected_noop_witness :
    get_fan_info ⟨false, none⟩ (fun _ => 0) 0 = ((0, 0), []) ∧
    set_fan_speed ⟨false, none⟩ (fun _ => 0) 0 50 = [] ∧
    set_auto ⟨false, none⟩ = [] ∧ set_manual_mode ⟨false, none⟩ = [] :=
  disconnected_noop ⟨false, none⟩ (fun _ => 0) 0 50 rfl

/-- C2: on the clevo (packed-write) variant, `set_fan_speed` issues exactly
one write, of the packed word whose `fan_id` channel byte is the new raw
speed `int(speed_pct * 2.55)` and whose other channel bytes are exactly the
low 8 bits of the status word just read back from those channels. -/
theorem clevo_packed_write_frame (c : FanController) (dev : Nat → Nat)
    (fan_id : Nat) (p : Int)
    (hfd : c.fd = true) (hpl : c.platform = some Platform.clevo)
    (hf : fan_id < 3) (hp0 : 0 ≤ p) (hp1 : p ≤ 100) :
    writesOf (set_fan_speed c dev fan_id p) =
      [(W_CL_FANSPEED, ((clevo_arg dev fan_id p : Nat) : Int))] ∧
    byteAt (clevo_arg dev fan_id p) fan_id = (clevo_raw p).toNat ∧
    (∀ i, i < 3 → i ≠ fan_id →
      byteAt (clevo_arg dev fan_id p) i =
        ((ioctl_read_int32 dev (cl_faninfo_cmds.getD i 0)) % 256).toNat) := by
  obtain ⟨fd, pl⟩ := c
  simp only at hfd hpl
  subst hfd hpl
  have hraw := clevo_raw_bounds p hp0 hp1
  have hrawN : (clevo_raw p).toNat < 256 := by omega
  have hby : ∀ x : ℤ, (x % 256).toNat < 256 := by intro x; omega
  interval_cases fan_id
  · refine ⟨by simp [set_fan_speed, writesOf], ?_, ?_⟩
    · exact (byteAt_pack _ _ _ hrawN (hby _) (hby _)).1
    · intro i hi hne
      interval_cases i
      · exact absurd rfl hne
      · exact (byteAt_pack _ _ _ hrawN (hby _) (hby _)).2.1
      · exact (byteAt_pack _ _ _ hrawN (hby _) (hby _)).2.2
  · refine ⟨by simp [set_fan_speed, writesOf], ?_, ?_⟩
    · exact (byteAt_pack _ _ _ (hby _) hrawN (hby _)).2.1
    · intro i hi hne
      interval_cases i
      · exact (byteAt_pack _ _ _ (hby _) hrawN (hby _)).1
      · exact absurd rfl hne
      · exact (byteAt_pack _ _ _ (hby _) hrawN (hby _)).2.2
  · refine ⟨by simp [set_fan_speed, writesOf], ?_, ?_⟩
    · exact (byteAt_pack _ _ _ (hby _) (hby _) hrawN).2.2
    · intro i hi hne
      interval_cases i
      · exact (byteAt_pack _ _ _ (hby _) (hby _) hrawN).1
      · exact (byteAt_pack _ _ _ (hby _) (hby _) hrawN).2.1
      · exact absurd rfl hne

theorem insert_gap_length (pts : List (ℤ × ℤ)) :
    pts.length ≤ (insert_gap pts).length ∧
    (insert_gap pts).length ≤ pts.length + 1 := by
  induction pts with
  | nil => simp [insert_gap]
  | cons p1 tail ih =>
    cases tail with
    | nil => simp [insert_gap]
    | cons p2 rest =>
      by_cases h : 5 < p2.1 - p1.1
      · simp [insert_gap, h]
      · simp only [insert_gap, if_neg h, List.length_cons]
        simp only [List.length_cons] at ih
        omega

theorem insert_gap_of_small_gaps (pts : List (ℤ × ℤ))
    (h : pts.Chain' (fun p q => q.1 - p.1 ≤ 5)) : insert_gap pts = pts := by
  induction pts with
  | nil => rfl
  | cons p1 tail ih =>
    cases tail with
    | nil => rfl
    | cons p2 rest =>
      rw [List.chain'_cons] at h
      rw [insert_gap, if_neg (by omega)]
      rw [ih h.2]

theorem insert_gap_first_gap (p1 p2 : ℤ × ℤ) (post : List (ℤ × ℤ)) :
    ∀ pre, (pre ++ [p1]).Chain' (fun p q => q.1 - p.1 ≤ 5) → 5 < p2.1 - p1.1 →
      insert_gap (pre ++ p1 :: p2 :: post) = pre ++ p1 :: midpoint2 p1 p2 :: p2 :: post := by
  intro pre
  induction pre with
  | nil =>
    intro _ hgap
    simp only [List.nil_append]
    rw [insert_gap, if_pos hgap]
  | cons q pre' ih =>
    intro hch hgap
    obtain ⟨hrel, hch'⟩ := List.chain'_cons'.mp hch
    cases pre' with
    | nil =>
      have hq : p1.1 - q.1 ≤ 5 := hrel p1 (by simp)
      simp only [List.cons_append, List.nil_append] at *
      rw [insert_gap, if_neg (by omega)]
      rw [show insert_gap (p1 :: p2 :: post) =
        [] ++ p1 :: midpoint2 p1 p2 :: p2 :: post from ih hch' hgap]
      simp
    | cons r pre'' =>
      have hq : r.1 - q.1 ≤ 5 := hrel r (by simp)
      simp only [List.cons_append] at *
      rw [insert_gap, if_neg (by omega)]
      rw [show insert_gap (r :: (pre'' ++ p1 :: p2 :: post)) =
        (r :: pre'') ++ p1 :: midpoint2 p1 p2 :: p2 :: post from
          ih hch' hgap]
      simp

/-- C4 counterexample: on the curve `[(0,0), (11,11), (40,40)]` the widest
gap is the 29-degree gap between `(11,11)` and `(40,40)`, yet the code
inserts `(5,5)`, bisecting (with floor division) the narrower first gap
`(0,0)`–`(11,11)`; the widest-gap bisection result is not produced. -/
theorem add_curve_point_not_widest :
    add_curve_point [((0 : ℤ), (0 : ℤ)), (11, 11), (40, 40)] =
      [(0, 0), (5, 5), (11, 11), (40, 40)] ∧
    ((40 : ℤ) - 11 > 11 - 0) ∧
    add_curve_point [((0 : ℤ), (0 : ℤ)), (11, 11), (40, 40)] ≠
      [(0, 0), (11, 11), (25, 25), (40, 40)] := by
  refine ⟨by decide, by decide, by decide⟩

/-- C4 (amended): curve-point insertion with no guidance bisects the FIRST
gap (in ascending temperature order) between two consecutive points whose
temperature difference exceeds 5 degrees, inserting the floor-midpoint of
both axes `((t1+t2)//2, (s1+s2)//2)`; it is a no-op when no gap exceeds
5 degrees or the curve already has 15 (or more) points. -/
theorem add_curve_point_first_gap (pts : List (ℤ × ℤ)) :
    (15 ≤ pts.length → add_curve_point pts = pts) ∧
    (pts.Chain' (fun p q => q.1 - p.1 ≤ 5) → add_curve_point pts = pts) ∧
    (∀ pre p1 p2 post, pts = pre ++ p1 :: p2 :: post → pts.length < 15 →
      (pre ++ [p1]).Chain' (fun p q => q.1 - p.1 ≤ 5) → 5 < p2.1 - p1.1 →
      add_curve_point pts = pre ++ p1 :: midpoint2 p1 p2 :: p2 :: post) := by
  refine ⟨?_, ?_, ?_⟩
  · intro h
    rw [add_curve_point, if_pos h]
  · intro h
    rw [add_curve_point]
    split
    · rfl
    · exact insert_gap_of_small_gaps pts h
  · intro pre p1 p2 post hpts hlen hch hgap
    rw [add_curve_point, if_neg (by omega), hpts]
    exact insert_gap_first_gap p1 p2 post pre hch hgap

theorem add_curve_point_first_gap_witness :
    ((15 : Nat) ≤ ([((0 : ℤ), (0 : ℤ)), (11, 11), (40, 40)] : List (ℤ × ℤ)).length →
      add_curve_point [((0 : ℤ), (0 : ℤ)), (11, 11), (40, 40)] =
        [(0, 0), (11, 11), (40, 40)]) ∧
    add_curve_point [((0 : ℤ), (0 : ℤ)), (11, 11), (40, 40)] =
      [] ++ (0, 0) :: midpoint2 (0, 0) (11, 11) :: (11, 11) :: [(40, 40)] := by
  refine ⟨(add_curve_point_first_gap _).1, ?_⟩
  exact (add_curve_point_first_gap [((0 : ℤ), (0 : ℤ)), (11, 11), (40, 40)]).2.2
    [] (0, 0) (11, 11) [(40, 40)] rfl (by decide) (by simp) (by decide)

/-- C7: the curve-point count stays between 2 and 15 inclusive: insertion
on a curve with 15 points does not add a point, and removal on a curve
with 2 points does not remove one; both operations preserve
`2 ≤ count ≤ 15`. -/
theorem curve_point_count_invariant (pts : List (ℤ × ℤ)) (sel : Option Nat)
    (h2 : 2 ≤ pts.length) (h15 : pts.length ≤ 15) :
    (pts.length = 15 → add_curve_point pts = pts) ∧
    (pts.length = 2 → remove_curve_point pts sel = pts) ∧
    2 ≤ (add_curve_point pts).length ∧ (add_curve_point pts).length ≤ 15 ∧
    2 ≤ (remove_curve_point pts sel).length ∧
    (remove_curve_point pts sel).length ≤ 15 := by
  have hins := insert_gap_length pts
  have hadd : 2 ≤ (add_curve_point pts).length ∧ (add_curve_point pts).length ≤ 15 := by
    rw [add_curve_point]
    split
    · omega
    · omega
  have hrem : 2 ≤ (remove_curve_point pts sel).length ∧
      (remove_curve_point pts sel).length ≤ 15 := by
    rw [remove_curve_point.eq_def]
    split
    · omega
    · cases sel with
      | none => simpa using ⟨h2, h15⟩
      | some idx =>
        have := List.length_eraseIdx pts idx
        simp only
        split at this <;> omega
  refine ⟨?_, ?_, hadd.1, hadd.2, hrem.1, hrem.2⟩
  · intro h
    rw [add_curve_point, if_pos (by omega)]
  · intro h
    rw [remove_curve_point.eq_def, if_pos (by omega)]

theorem curve_point_count_invariant_witness :
    add_curve_point [((0 : ℤ), (0 : ℤ)), (30, 30)] = [(0, 0), (15, 15), (30, 30)] ∧
    remove_curve_point [((0 : ℤ), (0 : ℤ)), (30, 30)] (some 0) = [(0, 0), (30, 30)] := by
  have h := curve_point_count_invariant [((0 : ℤ), (0 : ℤ)), (30, 30)] (some 0)
    (by decide) (by decide)
  refine ⟨by decide, h.2.1 rfl⟩

theorem set_brightness_go_ok (v : ℤ) (zs : List Zone)
    (h : ∀ y ∈ zs, y.bfile ≠ ZoneFile.wfail) :
    set_brightness_go v zs = (true, zs.map (bwrite v)) := by
  induction zs with
  | nil => rfl
  | cons z rest ih =>
    have hz := h z (by simp)
    have hr : ∀ y ∈ rest, y.bfile ≠ ZoneFile.wfail := fun y hy => h y (by simp [hy])
    cases hb : z.bfile with
    | present => simp [set_brightness_go, hb, ih hr, bwrite]
    | missing => simp [set_brightness_go, hb, ih hr, bwrite]
    | wfail => exact absurd hb hz

theorem set_brightness_go_abort (v : ℤ) (z : Zone) (post : List Zone) :
    ∀ pre, (∀ y ∈ pre, y.bfile ≠ ZoneFile.wfail) → z.bfile = ZoneFile.wfail →
      set_brightness_go v (pre ++ z :: post) =
        (false, pre.map (bwrite v) ++ z :: post) := by
  intro pre
  induction pre with
  | nil =>
    intro _ hz
    simp [set_brightness_go, hz]
  | cons y pre' ih =>
    intro hpre hz
    have hy := hpre y (by simp)
    have hr : ∀ u ∈ pre', u.bfile ≠ ZoneFile.wfail := fun u hu => hpre u (by simp [hu])
    cases hb : y.bfile with
    | present => simp [set_brightness_go, hb, ih hr hz, bwrite]
    | missing => simp [set_brightness_go, hb, ih hr hz, bwrite]
    | wfail => exact absurd hb hy

theorem set_color_zones_ok (rgb : ℤ × ℤ × ℤ) (zs : List Zone)
    (h : ∀ y ∈ zs, y.mfile ≠ ZoneFile.wfail) :
    set_color_zones rgb zs = (true, zs.map (cwrite rgb)) := by
  induction zs with
  | nil => rfl
  | cons z rest ih =>
    have hz := h z (by simp)
    have hr : ∀ y ∈ rest, y.mfile ≠ ZoneFile.wfail := fun y hy => h y (by simp [hy])
    cases hb : z.mfile with
    | present => simp [set_color_zones, hb, ih hr, cwrite]
    | missing => simp [set_color_zones, hb, ih hr, cwrite]
    | wfail => exact absurd hb hz

theorem set_color_zones_abort (rgb : ℤ × ℤ × ℤ) (z : Zone) (post : List Zone) :
    ∀ pre, (∀ y ∈ pre, y.mfile ≠ ZoneFile.wfail) → z.mfile = ZoneFile.wfail →
      set_color_zones rgb (pre ++ z :: post) =
        (false, pre.map (cwrite rgb) ++ z :: post) := by
  intro pre
  induction pre with
  | nil =>
    intro _ hz
    simp [set_color_zones, hz]
  | cons y pre' ih =>
    intro hpre hz
    have hy := hpre y (by simp)
    have hr : ∀ u ∈ pre', u.mfile ≠ ZoneFile.wfail := fun u hu => hpre u (by simp [hu])
    cases hb : y.mfile with
    | present => simp [set_color_zones, hb, ih hr hz, cwrite]
    | missing => simp [set_color_zones, hb, ih hr hz, cwrite]
    | wfail => exact absurd hb hy

/-- C5 counterexample: three zones, the middle zone's brightness file
raising on write.  `set_brightness` reports failure and does not roll back
zone 0 (it keeps the new value 100), but the remaining zone 2 is NOT
attempted: its brightness stays 3, contradicting "the remaining zones are
still attempted". -/
theorem set_brightness_abort_cex :
    (set_brightness ⟨[⟨ZoneFile.present, ZoneFile.present, 1, (0, 0, 0)⟩,
        ⟨ZoneFile.wfail, ZoneFile.present, 2, (0, 0, 0)⟩,
        ⟨ZoneFile.present, ZoneFile.present, 3, (0, 0, 0)⟩],
        true, 255, 0, (0, 0, 0)⟩ 100).1 = false ∧
    ((set_brightness ⟨[⟨ZoneFile.present, ZoneFile.present, 1, (0, 0, 0)⟩,
        ⟨ZoneFile.wfail, ZoneFile.present, 2, (0, 0, 0)⟩,
        ⟨ZoneFile.present, ZoneFile.present, 3, (0, 0, 0)⟩],
        true, 255, 0, (0, 0, 0)⟩ 100).2.zones.map Zone.brightness) = [100, 2, 3] := by
  decide

/-- C5 (amended): when a multi-zone brightness or color write fails for one
zone, the operation reports failure and zones already written before the
failing zone are not rolled back, but the zone loop ABORTS at the failing
zone: the remaining zones are not attempted.  With no failing zone the
operation succeeds and writes every zone whose attribute file exists. -/
theorem zone_write_failure_aborts (kb : Kb) (v r g b : ℤ) :
    (∀ pre z post, kb.zones = pre ++ z :: post →
      (∀ y ∈ pre, y.bfile ≠ ZoneFile.wfail) → z.bfile = ZoneFile.wfail →
      set_brightness kb v = (false, { kb with zones := pre.map (bwrite (max 0 (min v kb.maxBrightness))) ++ z :: post })) ∧
    ((∀ y ∈ kb.zones, y.bfile ≠ ZoneFile.wfail) → kb.zones ≠ [] →
      set_brightness kb v = (true, { kb with zones := kb.zones.map (bwrite (max 0 (min v kb.maxBrightness))) })) ∧
    (kb.hasRgb = true →
      (∀ pre z post, kb.zones = pre ++ z :: post →
        (∀ y ∈ pre, y.mfile ≠ ZoneFile.wfail) → z.mfile = ZoneFile.wfail →
        set_color kb r g b none = (false, { kb with zones := pre.map (cwrite (clamp255 r, clamp255 g, clamp255 b)) ++ z :: post })) ∧
      ((∀ y ∈ kb.zones, y.mfile ≠ ZoneFile.wfail) →
        set_color kb r g b none = (true, { kb with zones := kb.zones.map (cwrite (clamp255 r, clamp255 g, clamp255 b)) }))) := by
  refine ⟨?_, ?_, ?_⟩
  · intro pre z post hzs hpre hz
    rw [set_brightness, hzs]
    rw [if_neg (by simp)]
    simp [set_brightness_go_abort _ _ _ _ hpre hz]
  · intro h hne
    rw [set_brightness, if_neg (by simpa using hne)]
    simp [set_brightness_go_ok _ _ h]
  · intro hrgb
    constructor
    · intro pre z post hzs hpre hz
      rw [set_color, if_neg (by simp [hrgb]), hzs]
      simp [set_color_zones_abort _ _ _ _ hpre hz]
    · intro h
      rw [set_color, if_neg (by simp [hrgb])]
      simp [set_color_zones_ok _ _ h]

theorem zone_write_failure_aborts_witness :
    set_brightness ⟨[⟨ZoneFile.present, ZoneFile.present, 1, (0, 0, 0)⟩,
        ⟨ZoneFile.wfail, ZoneFile.present, 2, (0, 0, 0)⟩,
        ⟨ZoneFile.present, ZoneFile.present, 3, (0, 0, 0)⟩],
        true, 255, 0, (0, 0, 0)⟩ 100 =
      (false, ⟨[⟨ZoneFile.present, ZoneFile.present, 100, (0, 0, 0)⟩,
        ⟨ZoneFile.wfail, ZoneFile.present, 2, (0, 0, 0)⟩,
        ⟨ZoneFile.present, ZoneFile.present, 3, (0, 0, 0)⟩],
        true, 255, 0, (0, 0, 0)⟩) := by
  have h := (zone_write_failure_aborts ⟨[⟨ZoneFile.present, ZoneFile.present, 1, (0, 0, 0)⟩,
      ⟨ZoneFile.wfail, ZoneFile.present, 2, (0, 0, 0)⟩,
      ⟨ZoneFile.present, ZoneFile.present, 3, (0, 0, 0)⟩],
      true, 255, 0, (0, 0, 0)⟩ 100 0 0 0).1
    [⟨ZoneFile.present, ZoneFile.present, 1, (0, 0, 0)⟩]
    ⟨ZoneFile.wfail, ZoneFile.present, 2, (0, 0, 0)⟩
    [⟨ZoneFile.present, ZoneFile.present, 3, (0, 0, 0)⟩]
    rfl (by decide) rfl
  rw [h]
  decide

/-- C8: `restore_state` after `save_state`, with no intervening external
change, writes back exactly the brightness and zone-0 color that
`save_state` read from the live files (never a cached value), so the
round-trip reproduces the saved brightness and color exactly. -/
theorem clamp255_of_range (x : ℤ) (h0 : 0 ≤ x) (h1 : x ≤ 255) : clamp255 x = x := by
  rw [clamp255, min_eq_right h1, max_eq_right h0]

/-- C8: `restore_state` after `save_state`, with no intervening external
change, writes back exactly the brightness and zone-0 color that
`save_state` read from the live files (never a cached value), so the
round-trip reproduces the saved brightness and color exactly. -/
theorem save_restore_roundtrip (kb : Kb) (z0 : Zone) (rest : List Zone)
    (hz : kb.zones = z0 :: rest) (hb : z0.bfile = ZoneFile.present)
    (hr0 : 0 ≤ z0.brightness) (hr1 : z0.brightness ≤ kb.maxBrightness)
    (hm : kb.hasRgb = true → z0.mfile = ZoneFile.present ∧
      0 ≤ z0.color.1 ∧ z0.color.1 ≤ 255 ∧ 0 ≤ z0.color.2.1 ∧ z0.color.2.1 ≤ 255 ∧
      0 ≤ z0.color.2.2 ∧ z0.color.2.2 ≤ 255) :
    (save_state kb).savedBrightness = get_brightness kb ∧
    (kb.hasRgb = true → (save_state kb).savedColor = get_color kb 0) ∧
    get_brightness (restore_state (save_state kb)) = get_brightness kb ∧
    (kb.hasRgb = true →
      get_color (restore_state (save_state kb)) 0 = get_color kb 0) := by
  obtain ⟨zs, rgb, mx, sb, sc⟩ := kb
  simp only at hz hr1 hm
  subst hz
  have hgb : get_brightness ⟨z0 :: rest, rgb, mx, sb, sc⟩ = z0.brightness := by
    simp [get_brightness, hb]
  have hcl : max 0 (min z0.brightness mx) = z0.brightness := by
    rw [min_eq_left hr1, max_eq_right hr0]
  cases rgb with
  | false =>
    refine ⟨by simp [save_state, hgb], by simp, ?_, by simp⟩
    simp [save_state, restore_state, set_brightness, set_brightness_go,
      get_brightness, hb, hgb, hcl]
  | true =>
    obtain ⟨hmf, hc1, hc2, hc3, hc4, hc5, hc6⟩ := hm rfl
    have hgc : get_color ⟨z0 :: rest, true, mx, sb, sc⟩ 0 = z0.color := by
      cases hmm : z0.mfile <;> simp_all [get_color]
    have e1 : clamp255 z0.color.1 = z0.color.1 := clamp255_of_range _ hc1 hc2
    have e2 : clamp255 z0.color.2.1 = z0.color.2.1 := clamp255_of_range _ hc3 hc4
    have e3 : clamp255 z0.color.2.2 = z0.color.2.2 := clamp255_of_range _ hc5 hc6
    refine ⟨by simp [save_state, hgb], by simp [save_state, hgc], ?_, ?_⟩
    · simp [save_state, restore_state, set_brightness, set_brightness_go,
        set_color, set_color_zones, get_brightness, hb, hmf, hgb, hgc, hcl,
        e1, e2, e3]
    · intro _
      simp [save_state, restore_state, set_brightness, set_brightness_go,
        set_color, set_color_zones, get_color, get_brightness, hb, hmf, hgb,
        hgc, hcl, e1, e2, e3]

theorem save_restore_roundtrip_witness :
    get_brightness (restore_state (save_state
      ⟨[⟨ZoneFile.present, ZoneFile.present, 37, (10, 20, 30)⟩], true, 255, 0, (0, 0, 0)⟩)) =
      37 ∧
    get_color (restore_state (save_state
      ⟨[⟨ZoneFile.present, ZoneFile.present, 37, (10, 20, 30)⟩], true, 255, 0, (0, 0, 0)⟩)) 0 =
      (10, 20, 30) := by
  have h := save_restore_roundtrip
    ⟨[⟨ZoneFile.present, ZoneFile.present, 37, (10, 20, 30)⟩], true, 255, 0, (0, 0, 0)⟩
    ⟨ZoneFile.present, ZoneFile.present, 37, (10, 20, 30)⟩ [] rfl rfl
    (by decide) (by decide) (fun _ => by refine ⟨rfl, ?_⟩; decide)
  refine ⟨?_, ?_⟩
  · rw [h.2.2.1]; decide
  · rw [h.2.2.2 rfl]; decide

theorem int32_emod256 (w : Nat) (h : w < 2 ^ 32) :
    int32 w % 256 = ((w &&& 255 : Nat) : ℤ) := by
  rw [land255_eq_mod, int32, Nat.mod_eq_of_lt h]
  split
  · omega
  · omega

theorem int32_fdiv16 (w : Nat) (h : w < 2 ^ 32) :
    (Int.fdiv (int32 w) 65536) % 256 = (((w >>> 16) &&& 255 : Nat) : ℤ) := by
  rw [land255_eq_mod, Nat.shiftRight_eq_div_pow, int32, Nat.mod_eq_of_lt h]
  rw [show (2 : ℕ) ^ 16 = 65536 by norm_num]
  split
  · rw [Int.fdiv_eq_ediv _ (by norm_num)]
    omega
  · rw [Int.fdiv_eq_ediv _ (by norm_num)]
    omega

theorem clevo_decode_spec (x : Nat) (h32 : x < 2 ^ 32) :
    clevo_decode (int32 x) =
      (pyRound (((x &&& 255 : Nat) : ℚ) * 100 / 255),
       if 127 < (((x >>> 16) &&& 255 : Nat) : ℤ)
       then (((x >>> 16) &&& 255 : Nat) : ℤ) - 256
       else (((x >>> 16) &&& 255 : Nat) : ℤ)) := by
  have hsp := int32_emod256 x h32
  have htm := int32_fdiv16 x h32
  norm_num at hsp htm
  simp only [clevo_decode, hsp, htm]
  norm_num

/-- C6: on the clevo (combined-read) variant, `get_fan_info` decodes the
32-bit status word as `speed_percent = round((word & 0xff) * 100 / 255)`
(low byte rescaled from 0–255 to 0–100) and
`temperature = (word >> 16) & 0xff` sign-extended from 8 bits (values
above 127 become `value - 256`), for every 32-bit status word. -/
theorem clevo_status_decode (c : FanController) (dev : Nat → Nat) (fan_id : Nat)
    (w : Nat) (hfd : c.fd = true) (hpl : c.platform = some Platform.clevo)
    (hf : fan_id < 3) (hw : dev (cl_faninfo_cmds.getD fan_id 0) = w)
    (h32 : w < 2 ^ 32) :
    (get_fan_info c dev fan_id).1 =
      (pyRound (((w &&& 255 : Nat) : ℚ) * 100 / 255),
       if 127 < (((w >>> 16) &&& 255 : Nat) : ℤ)
       then (((w >>> 16) &&& 255 : Nat) : ℤ) - 256
       else (((w >>> 16) &&& 255 : Nat) : ℤ)) := by
  obtain ⟨fd, pl⟩ := c
  simp only at hfd hpl
  subst hfd hpl
  interval_cases fan_id
  · have hw1 : dev R_CL_FANINFO1 = w := hw
    calc (get_fan_info ⟨true, some Platform.clevo⟩ dev 0).1
        = clevo_decode (int32 (dev R_CL_FANINFO1)) := rfl
      _ = clevo_decode (int32 w) := by rw [hw1]
      _ = _ := clevo_decode_spec w h32
  · have hw1 : dev R_CL_FANINFO2 = w := hw
    calc (get_fan_info ⟨true, some Platform.clevo⟩ dev 1).1
        = clevo_decode (int32 (dev R_CL_FANINFO2)) := rfl
      _ = clevo_decode (int32 w) := by rw [hw1]
      _ = _ := clevo_decode_spec w h32
  · have hw1 : dev R_CL_FANINFO3 = w := hw
    calc (get_fan_info ⟨true, some Platform.clevo⟩ dev 2).1
        = clevo_decode (int32 (dev R_CL_FANINFO3)) := rfl
      _ = clevo_decode (int32 w) := by rw [hw1]
      _ = _ := clevo_decode_spec w h32

theorem clevo_status_decode_witness :
    (get_fan_info ⟨true, some Platform.clevo⟩ (fun _ => 11206861) 0).1 = (80, -85) := by
  have h := clevo_status_decode ⟨true, some Platform.clevo⟩ (fun _ => 11206861) 0
    11206861 rfl rfl (by decide) rfl (by norm_num)
  rw [h]
  with_unfolding_all decide

theorem pairwise_fst_le {pts : List (ℤ × ℤ)}
    (hs : pts.Pairwise (fun p q => p.1 < q.1)) (i j : Nat)
    (hi : i < pts.length) (hj : j < pts.length) (hij : i ≤ j) :
    (pts.get ⟨i, hi⟩).1 ≤ (pts.get ⟨j, hj⟩).1 := by
  rcases Nat.eq_or_lt_of_le hij with h | h
  · subst h
    exact le_refl _
  · exact le_of_lt (List.pairwise_iff_get.mp hs ⟨i, hi⟩ ⟨j, hj⟩ h)

theorem getLastD_eq_get (l : List (ℤ × ℤ)) (h : 0 < l.length) :
    l.getLastD (0, 0) = l.get ⟨l.length - 1, by omega⟩ := by
  rw [List.getLastD_eq_getLast?, List.getLast?_eq_get?, List.get?_eq_get (by omega)]
  rfl

theorem interpLoop_bracket (temp : ℤ) :
    ∀ (pts : List (ℤ × ℤ)) (i : Nat),
      pts.Pairwise (fun p q => p.1 < q.1) →
      i + 1 < pts.length →
      (pts.getD i (0, 0)).1 < temp → temp < (pts.getD (i + 1) (0, 0)).1 →
      interpLoop temp pts =
        some (interpStep (pts.getD i (0, 0)) (pts.getD (i + 1) (0, 0)) temp) := by
  intro pts
  induction pts with
  | nil =>
    intro i _ hlen
    simp at hlen
  | cons p1 tail ih =>
    intro i hs hlen h1 h2
    cases tail with
    | nil =>
      simp at hlen
    | cons p2 rest =>
      cases i with
      | zero =>
        simp only [List.getD_cons_zero, List.getD_cons_succ] at h1 h2 ⊢
        rw [interpLoop, if_pos ⟨le_of_lt h1, le_of_lt (by simpa using h2)⟩]
      | succ k =>
        have hlen' : k + 1 < (p2 :: rest).length := by
          simpa using hlen
        have hk : k < (p2 :: rest).length := by omega
        have hmono : p2.1 ≤ ((p2 :: rest).getD k (0, 0)).1 := by
          rw [List.getD_eq_get _ _ hk]
          have := pairwise_fst_le hs.of_cons 0 k (by omega) hk (by omega)
          simpa using this
        simp only [List.getD_cons_succ] at h1 h2
        have hcond : ¬(p1.1 ≤ temp ∧ temp ≤ p2.1) := by
          intro hc
          omega
        rw [interpLoop, if_neg hcond]
        exact ih k hs.of_cons hlen' h1 h2

/-- C1 counterexample: on the curve `[(30,0), (40,90)]` at temperature 37
the program evaluates `int(0 + (37 - 30) / (40 - 30) * (90 - 0))` in IEEE
doubles: `7/10` rounds to just below `0.7`, the product to just below
`63`, so `get_speed` returns 62, while the claim's exact interpolation
formula truncated toward zero mandates 63. -/
theorem get_speed_not_exact_trunc :
    get_speed [((30 : ℤ), (0 : ℤ)), (40, 90)] 37 = 62 ∧
    ratTrunc ((0 : ℚ) + ((37 : ℚ) - 30) / ((40 : ℚ) - 30) * ((90 : ℚ) - 0)) = 63 := by
  constructor
  · with_unfolding_all decide
  · with_unfolding_all decide

/-- C1 (amended): `FanCurve.get_speed`, on a curve with at least 2 points
sorted by strictly ascending temperature, returns, at or below the lowest
point's temperature, that point's speed; at or above the highest point's
temperature, the highest point's speed; and strictly between two
consecutive points `(t1,s1)`, `(t2,s2)` the IEEE-binary64 evaluation of
`s1 + (temp - t1) / (t2 - t1) * (s2 - s1)` truncated toward zero — which
can be one below the exact rational truncation, e.g. 62 instead of 63 for
`(30,0)`, `(40,90)` at temperature 37. -/
theorem get_speed_spec (pts : List (ℤ × ℤ)) (temp : ℤ)
    (hlen : 2 ≤ pts.length) (hs : pts.Pairwise (fun p q => p.1 < q.1)) :
    (temp ≤ (pts.headD (0, 0)).1 → get_speed pts temp = (pts.headD (0, 0)).2) ∧
    ((pts.getLastD (0, 0)).1 ≤ temp → get_speed pts temp = (pts.getLastD (0, 0)).2) ∧
    (∀ i, i + 1 < pts.length →
      (pts.getD i (0, 0)).1 < temp → temp < (pts.getD (i + 1) (0, 0)).1 →
      get_speed pts temp =
        ratTrunc (fl (fl (((pts.getD i (0, 0)).2 : ℚ)) +
          fl (fl (((temp - (pts.getD i (0, 0)).1 : ℤ) : ℚ) /
              (((pts.getD (i + 1) (0, 0)).1 - (pts.getD i (0, 0)).1 : ℤ) : ℚ)) *
            fl ((((pts.getD (i + 1) (0, 0)).2 - (pts.getD i (0, 0)).2 : ℤ) : ℚ)))))) := by
  have h0 : 0 < pts.length := by omega
  have hlast := getLastD_eq_get pts h0
  have hhead : pts.headD (0, 0) = pts.get ⟨0, h0⟩ := by
    cases pts with
    | nil => simp at h0
    | cons a l => rfl
  have hfl : (pts.headD (0, 0)).1 < (pts.getLastD (0, 0)).1 := by
    rw [hhead, hlast]
    exact List.pairwise_iff_get.mp hs ⟨0, h0⟩ ⟨pts.length - 1, by omega⟩ (by
      simp only [Fin.mk_lt_mk]
      omega)
  refine ⟨?_, ?_, ?_⟩
  · intro h
    rw [get_speed, if_pos h]
  · intro h
    rw [get_speed, if_neg (by omega), if_pos h]
  · intro i hilen h1 h2
    have hi : i < pts.length := by omega
    have hi1 : i + 1 < pts.length := hilen
    have hfirst : (pts.get ⟨0, h0⟩).1 ≤ (pts.getD i (0, 0)).1 := by
      rw [List.getD_eq_get _ _ hi]
      exact pairwise_fst_le hs 0 i h0 hi (by omega)
    have hlastge : (pts.getD (i + 1) (0, 0)).1 ≤ (pts.get ⟨pts.length - 1, by omega⟩).1 := by
      rw [List.getD_eq_get _ _ hi1]
      exact pairwise_fst_le hs (i + 1) (pts.length - 1) hi1 (by omega) (by omega)
    have hnot1 : ¬ temp ≤ (pts.headD (0, 0)).1 := by
      rw [hhead]
      omega
    have hnot2 : ¬ (pts.getLastD (0, 0)).1 ≤ temp := by
      rw [hlast]
      omega
    rw [get_speed, if_neg hnot1, if_neg hnot2,
      interpLoop_bracket temp pts i hs hilen h1 h2]
    rfl

theorem get_speed_spec_witness :
    get_speed [((60 : ℤ), (50 : ℤ)), (70, 70)] 65 = 60 := by
  have h := (get_speed_spec [((60 : ℤ), (50 : ℤ)), (70, 70)] 65 (by decide)
    (by decide)).2.2 0 (by decide) (by decide) (by decide)
  rw [h]
  with_unfolding_all rfl

/-- C10: the clevo speed write/read round-trip is exact: for every integer
percentage 0–100, encoding as `int(speed_pct * 2.55)` and decoding as
`round(raw * 100 / 255)` returns the original percentage. -/
theorem clevo_speed_roundtrip (p : Nat) (hp : p < 101) :
    pyRound ((clevo_raw (p : ℤ) : ℚ) * 100 / 255) = p := by
  revert hp
  revert p
  with_unfolding_all decide

theorem clevo_speed_roundtrip_witness :
    pyRound ((clevo_raw ((42 : Nat) : ℤ) : ℚ) * 100 / 255) = 42 :=
  clevo_speed_roundtrip 42 (by decide)

theorem clevo_packed_write_frame_witness :
    writesOf (set_fan_speed ⟨true, some Platform.clevo⟩ (fun _ => 0x12345) 1 50) =
      [(W_CL_FANSPEED, ((clevo_arg (fun _ => 0x12345) 1 50 : Nat) : Int))] ∧
    byteAt (clevo_arg (fun _ => 0x12345) 1 50) 1 = 127 ∧
    byteAt (clevo_arg (fun _ => 0x12345) 1 50) 0 = 0x45 := by
  obtain ⟨h1, h2, h3⟩ := clevo_packed_write_frame ⟨true, some Platform.clevo⟩
    (fun _ => 0x12345) 1 50 rfl rfl (by decide) (by decide) (by decide)
  refine ⟨h1, ?_, ?_⟩
  · rw [h2]; decide
  · rw [h3 0 (by decide) (by decide)]; decide

end NotebookControl
